import Mathlib

/-!
Verification of the probe-orchestration core of the Navarro username
checker (src/navarro.py and src/navarro_pw.py) against its design
document.

Modelling conventions (shallow embedding):
* Timestamps (`datetime`) are rationals, seconds since an arbitrary epoch.
  All `datetime.now()` calls that occur inside one method invocation are
  idealised to return the same instant, which is passed in as the `now`
  argument of that method.
* Python floats are modelled as rationals; the literal `0.9` is modelled
  as `9/10`.  Every number the limiter manipulates (powers of two times
  `0.5`, the caps `30` and `0.5`) is exactly representable as a double,
  so the claims settled here have the same truth value over doubles.
* Python dicts are association lists with unique keys; `defaultdict`
  access is `dictGetD`, which inserts the default on a miss exactly as
  the lazily evaluated default factory does.
* JSON values are the inductive `JVal`.  A JSON string that holds a
  valid ISO-8601 timestamp is modelled as `JVal.tstamp t` carrying the
  represented instant, and `JVal.str s` models every other string;
  `datetime.isoformat` produces a `tstamp` and
  `datetime.fromisoformat` inverts it (ISO-8601 text is an injective,
  locale-independent encoding, so this pairing is faithful).  Persisted
  delay values are modelled as JSON numbers; non-numeric delay entries
  (which Python would carry along and later crash on in arithmetic) are
  outside the model and dropped by `delaysUpdate`.
* Python exceptions are the `PyErr` kind enumeration together with
  `Except`; a `try/except` block is an explicit `match` on the
  `Except` value, and partial mutation before an exception is kept, as
  in the source.
-/

namespace Navarro

/-- `CheckResult` enum: result types for platform checks. -/
inductive CheckResult where
  | FOUND
  | NOT_FOUND
  | NETWORK_ERROR
  | RATE_LIMITED
  | TIMEOUT
  | UNKNOWN_ERROR
deriving DecidableEq, Repr

/-- Kinds of Python exceptions the persistence code distinguishes. -/
inductive PyErr where
  | attrError
  | typeError
  | valueError
  | ioError
deriving DecidableEq, Repr

/-- Simplified JSON values (see the file header for the `tstamp`
convention). -/
inductive JVal where
  | num (q : ℚ)
  | str (s : String)
  | tstamp (t : ℚ)
  | boolv (b : Bool)
  | null
  | obj (fields : List (String × JVal))

/-- Association-list lookup, i.e. Python dict lookup. -/
def alistFind {α : Type} (l : List (String × α)) (k : String) : Option α :=
  (l.find? (fun p => p.1 == k)).map (fun p => p.2)

/-- Python dict assignment `d[k] = v`: overwrite in place when the key
exists, otherwise append (insertion order is preserved, as for Python
dicts). -/
def setEntry {α : Type} (l : List (String × α)) (k : String) (v : α) :
    List (String × α) :=
  if l.any (fun p => p.1 == k) then
    l.map (fun p => if p.1 == k then (k, v) else p)
  else l ++ [(k, v)]

/-- `defaultdict` access `d[k]`: return the stored value, or insert and
return the default produced by the factory at access time. -/
def dictGetD {α : Type} (l : List (String × α)) (k : String) (dflt : α) :
    α × List (String × α) :=
  match alistFind l k with
  | some v => (v, l)
  | none => (dflt, l ++ [(k, dflt)])

/-- One entry of `RateLimiter.limits`: `{"count": ..., "reset_time": ...}`.
`count` is kept verbatim from the store (the code never arithmetises it),
`reset_time` is always a datetime in memory. -/
structure LimitEntry where
  count : JVal
  reset_time : ℚ

/-- In-memory state of a `RateLimiter`: the three per-platform maps. -/
structure RLState where
  limits : List (String × LimitEntry)
  delays : List (String × ℚ)
  last_request : List (String × ℚ)

/-- The state right after `__init__` has built the three empty
defaultdicts, before `load_limits` runs. -/
def initState : RLState := { limits := [], delays := [], last_request := [] }

/-- Content of the backing store file `~/.navarro_rate_limits.json`:
absent, unparsable by `json.load` (this includes the empty file), or a
parsed JSON value. -/
inductive FileContent where
  | missing
  | malformed
  | parsed (v : JVal)

/-- Python `v.get(k, dflt)`: only dicts have `.get`; any other value
raises `AttributeError`. -/
def pyGet (v : JVal) (k : String) (dflt : JVal) : Except PyErr JVal :=
  match v with
  | .obj fs => .ok ((((fs.find? (fun p => p.1 == k))).map (fun p => p.2)).getD dflt)
  | _ => .error .attrError

/-- Python `v.items()`: only dicts have `.items`. -/
def pyItems : JVal → Except PyErr (List (String × JVal))
  | .obj fs => .ok fs
  | _ => .error .attrError

/-- `datetime.fromisoformat`: succeeds exactly on strings that encode a
timestamp; other strings raise `ValueError`, non-strings `TypeError`. -/
def fromisoformat : JVal → Except PyErr ℚ
  | .tstamp t => .ok t
  | .str _ => .error .valueError
  | _ => .error .typeError

/-- Processing of one `(platform, limit_data)` item inside
`load_limits`: read `reset_time` (default `datetime.now().isoformat()`),
parse it with the inner `try/except (ValueError, TypeError)` falling
back to `now`, then read `count` (default `0`).  An `AttributeError`
from `.get` on a non-dict propagates. -/
def loadEntry (limit_data : JVal) (now : ℚ) : Except PyErr LimitEntry := do
  let rtv ← pyGet limit_data "reset_time" (.tstamp now)
  let reset_time :=
    match fromisoformat rtv with
    | .ok t => t
    | .error _ => now
  let count ← pyGet limit_data "count" (.num 0)
  return { count := count, reset_time := reset_time }

/-- The `for platform, limit_data in ...items()` loop of `load_limits`.
On an uncaught exception the partially updated map is kept (the outer
handler swallows the exception but does not roll back). -/
def limitsLoop (items : List (String × JVal)) (now : ℚ)
    (acc : List (String × LimitEntry)) :
    List (String × LimitEntry) × Option PyErr :=
  match items with
  | [] => (acc, none)
  | (platform, limit_data) :: rest =>
    match loadEntry limit_data now with
    | .error e => (acc, some e)
    | .ok entry => limitsLoop rest now (setEntry acc platform entry)

/-- `self.delays.update` on the stored delays dict: updating from a
dict stores its entries; updating from a non-dict raises before any
mutation.  Non-numeric delay values are outside the model (header). -/
def delaysUpdate (delays : List (String × ℚ)) :
    JVal → List (String × ℚ) × Option PyErr
  | .obj fs =>
    (fs.foldl (fun acc pv =>
      match pv.2 with
      | .num q => setEntry acc pv.1 q
      | _ => acc) delays, none)
  | _ => (delays, some .typeError)

/-- `RateLimiter.load_limits`: read the store, converting ISO strings
back to datetimes; the whole body is wrapped in
`try/except Exception: pass`, so every failure leaves the state as
mutated so far and surfaces nothing. -/
def load_limits (st : RLState) (file : FileContent) (now : ℚ) : RLState :=
  match file with
  | .missing => st
  | .malformed => st
  | .parsed v =>
    match pyGet v "limits" (.obj []) with
    | .error _ => st
    | .ok limitsV =>
      match pyItems limitsV with
      | .error _ => st
      | .ok items =>
        let r := limitsLoop items now st.limits
        let st1 : RLState := { st with limits := r.1 }
        match r.2 with
        | some _ => st1
        | none =>
          match pyGet v "delays" (.obj []) with
          | .error _ => st1
          | .ok delaysV =>
            let d := delaysUpdate st1.delays delaysV
            { st1 with delays := d.1 }

/-- `RateLimiter.__init__`: build the empty defaultdicts, then
`load_limits`. -/
def mkRateLimiter (file : FileContent) (now : ℚ) : RLState :=
  load_limits initState file now

/-- Serialisation of one limits entry performed by `save_limits`
(`reset_time` via `.isoformat()`). -/
def serializeEntry (e : LimitEntry) : JVal :=
  .obj [("count", e.count), ("reset_time", .tstamp e.reset_time)]

/-- The JSON document `save_limits` writes. -/
def saveStore (st : RLState) : JVal :=
  .obj [("limits", .obj (st.limits.map (fun pe => (pe.1, serializeEntry pe.2)))),
        ("delays", .obj (st.delays.map (fun pd => (pd.1, .num pd.2))))]

/-- `RateLimiter.save_limits`: best-effort write wrapped in
`try/except Exception: pass`; `writeOk` says whether the file write
succeeds.  Returns the written document, `none` when the write failed
(the failure is swallowed, the in-memory state untouched). -/
def save_limits (st : RLState) (writeOk : Bool) : Option JVal :=
  if writeOk then some (saveStore st) else none

/-- `RateLimiter.should_wait`, including the defaultdict insertions its
map accesses perform; returns the wait together with the state after
those insertions.  The `isinstance(reset_time, str)` branch of the
source is dead in memory (every stored `reset_time` is a datetime) and
has no counterpart here. -/
def should_wait (st : RLState) (platform : String) (now : ℚ) :
    ℚ × RLState :=
  let e := dictGetD st.limits platform { count := .num 0, reset_time := now }
  let st1 : RLState := { st with limits := e.2 }
  let reset_time := e.1.reset_time
  if now < reset_time then (reset_time - now, st1)
  else
    let lr := dictGetD st1.last_request platform now
    let dl := dictGetD st1.delays platform (1/2)
    let st2 : RLState := { st1 with last_request := lr.2, delays := dl.2 }
    let time_since_last := now - lr.1
    if time_since_last < dl.1 then (dl.1 - time_since_last, st2)
    else (0, st2)

/-- `RateLimiter.record_request`: stamp `last_request`, adjust the
delay (double capped at 30 when throttled, times `9/10` floored at
`1/2` otherwise), set the one-minute cool-down when throttled, then
`save_limits`. -/
def record_request (st : RLState) (platform : String)
    (was_rate_limited : Bool) (now : ℚ) (writeOk : Bool) :
    RLState × Option JVal :=
  let st0 : RLState :=
    { st with last_request := setEntry st.last_request platform now }
  let st1 : RLState :=
    if was_rate_limited then
      let dl := dictGetD st0.delays platform (1/2)
      let sta : RLState :=
        { st0 with delays := setEntry dl.2 platform (min (dl.1 * 2) 30) }
      let e := dictGetD sta.limits platform { count := .num 0, reset_time := now }
      { sta with limits := setEntry e.2 platform { e.1 with reset_time := now + 60 } }
    else
      let dl := dictGetD st0.delays platform (1/2)
      { st0 with delays := setEntry dl.2 platform (max (dl.1 * (9/10)) (1/2)) }
  (st1, save_limits st1 writeOk)

/-- The delay the limiter would use for `platform` (explicit entry or
the defaultdict's `0.5`). -/
def delayOf (st : RLState) (platform : String) : ℚ :=
  ((alistFind st.delays platform)).getD (1/2)

/-- The `last_request` entry for `platform`, when one exists. -/
def lastRequestOf (st : RLState) (platform : String) : Option ℚ :=
  alistFind st.last_request platform

/-- The reset deadline the limiter would observe for `platform` at
time `now` (explicit entry, or the defaultdict's `now`). -/
def resetTimeOf (st : RLState) (platform : String) (now : ℚ) : ℚ :=
  (((alistFind st.limits platform)).getD
    { count := .num 0, reset_time := now }).reset_time

/-- One `record_request` call description, for reasoning about call
sequences. -/
structure RecordOp where
  platform : String
  was_rate_limited : Bool
  now : ℚ
  writeOk : Bool

/-- Run a sequence of `record_request` calls. -/
def runRecords (st : RLState) (ops : List RecordOp) : RLState :=
  ops.foldl
    (fun s op => (record_request s op.platform op.was_rate_limited op.now op.writeOk).1)
    st

/-- Executable substring test on character lists. -/
def isSubList (pat : List Char) : List Char → Bool
  | [] => pat.isEmpty
  | c :: rest => pat.isPrefixOf (c :: rest) || isSubList pat rest

/-- Python `pat in s` on strings: substring containment. -/
def strContains (s pat : String) : Bool := isSubList pat.data s.data

/-- Python `str.lower()` (ASCII case folding, which covers every text
the classifier compares). -/
def pyLower (s : String) : String := String.mk (s.data.map Char.toLower)

/-- Digit run to a number, `none` if empty or not all decimal digits. -/
def digitsToNat? (cs : List Char) : Option Nat :=
  if cs.isEmpty then none
  else if cs.all Char.isDigit then
    some (cs.foldl (fun n c => n * 10 + (c.toNat - 48)) 0)
  else none

/-- Python `int(s)` on a string: strip whitespace, optional sign,
decimal digits; `ValueError` (here `none`) otherwise.  Underscore
separators and non-ASCII digits are outside the model. -/
def pyInt? (s : String) : Option Int :=
  let cs := (((s.data.dropWhile Char.isWhitespace).reverse).dropWhile Char.isWhitespace).reverse
  match cs with
  | '-' :: rest => (digitsToNat? rest).map (fun n => -(n : Int))
  | '+' :: rest => (digitsToNat? rest).map (fun n => (n : Int))
  | _ => (digitsToNat? cs).map (fun n => (n : Int))

/-- A `requests` response as the classifier sees it: status code,
headers, body text. -/
structure Response where
  status_code : Nat
  headers : List (String × String)
  text : String

/-- Header lookup; `requests` headers are a case-insensitive dict. -/
def headersGet (hs : List (String × String)) (k : String) : Option String :=
  (hs.find? (fun p => pyLower p.1 == pyLower k)).map (fun p => p.2)

/-- Python `k in response.headers`. -/
def headersHas (hs : List (String × String)) (k : String) : Bool :=
  (headersGet hs k).isSome

/-- The quota headers `check_rate_limit` inspects. -/
def remaining_headers : List String :=
  ["x-ratelimit-remaining", "x-rate-limit-remaining"]

/-- The throttling phrases of navarro.py's `check_rate_limit`. -/
def rate_limit_patterns : List String :=
  ["rate limit exceeded", "too many requests", "429 too many requests"]

/-- navarro.py `check_rate_limit(response)`: 429 status, `retry-after`
header, a quota header parsing to 0, or a throttling phrase in the
lowercased body. -/
def check_rate_limit (response : Response) : Bool :=
  if response.status_code == 429 then true
  else if headersHas response.headers "retry-after" then true
  else if remaining_headers.any (fun header =>
      match headersGet response.headers header with
      | some v =>
        match pyInt? v with
        | some remaining => remaining == 0
        | none => false
      | none => false) then true
  else
    let response_text := pyLower response.text
    rate_limit_patterns.any (fun pattern => strContains response_text pattern)

/-- The throttling phrases of navarro_pw.py's `check_rate_limit`. -/
def rate_limit_patterns_pw : List String :=
  ["rate limit exceeded", "too many requests", "429 too many requests",
   "you have triggered a rate limit", "please wait before retrying",
   "retry later", "temporarily blocked"]

/-- navarro_pw.py `check_rate_limit(content)`: `False` on empty
content, otherwise a phrase match against the lowercased page text. -/
def check_rate_limit_pw (content : String) : Bool :=
  if content == "" then false
  else
    let c := pyLower content
    rate_limit_patterns_pw.any (fun pattern => strContains c pattern)

/-- The Playwright variant applied to a raw signal bundle: the
navarro_pw probes hand the helper only the page content, so the status
code and headers of the bundle are discarded. -/
def check_rate_limit_pw_bundle (response : Response) : Bool :=
  check_rate_limit_pw response.text

/-- The classification property exactly as the design document words
it, over a raw signal bundle. -/
def rate_limited_spec (response : Response) : Prop :=
  response.status_code = 429 ∨
  headersHas response.headers "retry-after" = true ∨
  (∃ h ∈ remaining_headers, ∃ v, headersGet response.headers h = some v ∧
    pyInt? v = some 0) ∨
  (∃ p ∈ rate_limit_patterns, strContains (pyLower response.text) p = true)

/-- Exception kinds `handle_request_errors` distinguishes
(`requests.exceptions.Timeout` / `ConnectionError` /
`RequestException` / anything else; the Playwright decorator has the
same shape with its timeout, transport and catch-all arms). -/
inductive ReqExc where
  | timeout
  | connectionError
  | requestException
  | other
deriving DecidableEq, Repr

/-- The outcome each `except` arm of `handle_request_errors`
substitutes for an escaped exception. -/
def excOutcome : ReqExc → CheckResult
  | .timeout => .TIMEOUT
  | .connectionError => .NETWORK_ERROR
  | .requestException => .NETWORK_ERROR
  | .other => .UNKNOWN_ERROR

/-- The `handle_request_errors` decorator: run the probe body, catch
any escaping exception at this single boundary and map it per kind. -/
def handle_request_errors (func : String → Except ReqExc CheckResult)
    (username : String) : CheckResult :=
  match func username with
  | .ok r => r
  | .error e => excOutcome e

/-- The per-run tally dict of `check_username`, keyed by
`CheckResult`. -/
structure Stats where
  found : ℕ
  not_found : ℕ
  network_error : ℕ
  rate_limited : ℕ
  timeout : ℕ
  unknown_error : ℕ
deriving DecidableEq, Repr

/-- All six counters start at 0. -/
def Stats.zero : Stats :=
  { found := 0, not_found := 0, network_error := 0, rate_limited := 0,
    timeout := 0, unknown_error := 0 }

/-- `stats[result] += 1`. -/
def Stats.incr (s : Stats) : CheckResult → Stats
  | .FOUND => { s with found := s.found + 1 }
  | .NOT_FOUND => { s with not_found := s.not_found + 1 }
  | .NETWORK_ERROR => { s with network_error := s.network_error + 1 }
  | .RATE_LIMITED => { s with rate_limited := s.rate_limited + 1 }
  | .TIMEOUT => { s with timeout := s.timeout + 1 }
  | .UNKNOWN_ERROR => { s with unknown_error := s.unknown_error + 1 }

/-- Read one counter. -/
def Stats.get (s : Stats) : CheckResult → ℕ
  | .FOUND => s.found
  | .NOT_FOUND => s.not_found
  | .NETWORK_ERROR => s.network_error
  | .RATE_LIMITED => s.rate_limited
  | .TIMEOUT => s.timeout
  | .UNKNOWN_ERROR => s.unknown_error

/-- `check_username`: iterate the registered checks in their
registration order (the rich and plain console branches of the source
run this identical loop), store one outcome per platform and bump the
tally.  A probe is an outcome-valued function of the username whose
escaping exception is modelled in `Except`; the decorator sits at the
single invocation boundary as in the source (it is applied at probe
definition, so the registry's callables are already wrapped).  The
pre-probe `should_wait`/`sleep` of `check_single_platform` affects
timing only, not the recorded outcome. -/
def check_username
    (checks : List (String × (String → Except ReqExc CheckResult)))
    (username : String) : List (String × CheckResult) × Stats :=
  checks.foldl
    (fun acc pf =>
      let result := handle_request_errors pf.2 username
      (acc.1 ++ [(pf.1, result)], acc.2.incr result))
    ([], Stats.zero)

/-- What one `session.get` inside a requests-based probe produces: an
escaping exception or a response. -/
inductive ReqResult where
  | exc (e : ReqExc)
  | resp (r : Response)

/-- Body of the `github` probe (navarro.py): outcome (or escaped
exception) together with the `record_request` calls made, each
`(platform, was_rate_limited)`.  The `session.get` happens before any
record, so an exception leaves the record list empty. -/
def github_body (env : ReqResult) :
    Except ReqExc CheckResult × List (String × Bool) :=
  match env with
  | .exc e => (.error e, [])
  | .resp r =>
    if check_rate_limit r then (.ok .RATE_LIMITED, [("github", true)])
    else
      (.ok (if r.status_code == 200 && !(strContains r.text "Not Found")
            then .FOUND else .NOT_FOUND),
       [("github", false)])

/-- The decorated `github` probe: `handle_request_errors` around the
body; records made before the exception persist (the limiter is global
state). -/
def github_run (env : ReqResult) : CheckResult × List (String × Bool) :=
  ((match (github_body env).1 with
    | .ok r => r
    | .error e => excOutcome e),
   (github_body env).2)

/-- The instances the `mastodon` probe tries, in order. -/
def mastodon_instances : List String :=
  ["mastodon.social", "hachyderm.io", "infosec.exchange"]

/-- The instance loop of the `mastodon` probe (navarro.py): every
in-loop exception is swallowed by `continue`; a throttled response
records and returns, a found profile records and returns, anything
else moves on; after the loop one final record precedes `NOT_FOUND`. -/
def mastodon_loop (username : String) (env : String → ReqResult) :
    List String → CheckResult × List (String × Bool)
  | [] => (.NOT_FOUND, [("mastodon", false)])
  | instanceName :: rest =>
    match env instanceName with
    | .exc _ => mastodon_loop username env rest
    | .resp r =>
      if check_rate_limit r then (.RATE_LIMITED, [("mastodon", true)])
      else if r.status_code == 200 &&
          (strContains (pyLower r.text) ("@" ++ pyLower username) ||
           strContains (pyLower r.text) (pyLower username)) then
        (.FOUND, [("mastodon", false)])
      else mastodon_loop username env rest

/-- The `mastodon` probe body run over its three instances. -/
def mastodon_run (username : String) (env : String → ReqResult) :
    CheckResult × List (String × Bool) :=
  mastodon_loop username env mastodon_instances

/-- What the Playwright interaction of the `discord` probe
(navarro_pw.py) produces: its `PlaywrightTimeoutError` handler fires,
or the availability element's inner text is read. -/
inductive DiscordEnv where
  | timeoutExc
  | text (s : String)

/-- The `discord` probe (navarro_pw.py): on its internal timeout it
records a throttled request and returns `RATE_LIMITED`; on the normal
path it decides `FOUND`/`NOT_FOUND` from the element text WITHOUT ever
calling `record_request`. -/
def discord_run (env : DiscordEnv) : CheckResult × List (String × Bool) :=
  match env with
  | .timeoutExc => (.RATE_LIMITED, [("discord", true)])
  | .text s =>
    ((if strContains s "Username is unavailable." then .FOUND
      else .NOT_FOUND), [])


/-- The `limits` section a parsed store object yields, with the empty
dict as the `.get` default. -/
def limitsSection (fs : List (String × JVal)) : JVal :=
  (((fs.find? (fun p => p.1 == "limits"))).map (fun p => p.2)).getD (.obj [])

/-- The `delays` section a parsed store object yields, with the empty
dict as the `.get` default. -/
def delaysSection (fs : List (String × JVal)) : JVal :=
  (((fs.find? (fun p => p.1 == "delays"))).map (fun p => p.2)).getD (.obj [])

/-- The design document's delay invariant `0.5 <= d <= 30`. -/
def delayInRange (d : ℚ) : Prop := 1/2 ≤ d ∧ d ≤ 30

/-- Every numeric entry of the `delays` section of the store lies in
the invariant range (vacuously true when the file is absent, corrupt
or has no well-formed `delays` dict). -/
def fileDelaysInRange : FileContent → Prop
  | .parsed (.obj fs) =>
    (match delaysSection fs with
     | .obj ds => ∀ pr ∈ ds, ∀ q : ℚ, pr.2 = JVal.num q → delayInRange q
     | _ => True)
  | _ => True

/-! ### Association-list lemmas -/

theorem alistFind_cons {α : Type} (k' : String) (v : α)
    (l : List (String × α)) (k : String) :
    alistFind ((k', v) :: l) k = if k' = k then some v else alistFind l k := by
  by_cases h : k' = k
  · rw [if_pos h]
    unfold alistFind
    rw [List.find?_cons_of_pos _ (by simpa using h)]
    rfl
  · rw [if_neg h]
    unfold alistFind
    rw [List.find?_cons_of_neg _ (by simpa using h)]

theorem alistFind_append {α : Type} (l₁ l₂ : List (String × α)) (k : String) :
    alistFind (l₁ ++ l₂) k = (alistFind l₁ k).or (alistFind l₂ k) := by
  induction l₁ with
  | nil => simp [alistFind]
  | cons p rest ih =>
    rcases p with ⟨k', v⟩
    rw [List.cons_append, alistFind_cons, alistFind_cons]
    by_cases h : k' = k
    · simp [h]
    · simp [h, ih]

theorem alistFind_append_of_none {α : Type} {l₁ : List (String × α)}
    (l₂ : List (String × α)) {k : String} (h : alistFind l₁ k = none) :
    alistFind (l₁ ++ l₂) k = alistFind l₂ k := by
  rw [alistFind_append, h, Option.none_or]

theorem alistFind_eq_none_iff {α : Type} {l : List (String × α)} {k : String} :
    alistFind l k = none ↔ l.any (fun p => p.1 == k) = false := by
  induction l with
  | nil => simp [alistFind]
  | cons p rest ih =>
    rcases p with ⟨k', v⟩
    rw [alistFind_cons]
    by_cases h : k' = k
    · simp [h]
    · simp [h, ih]

theorem setEntry_of_find_none {α : Type} {l : List (String × α)} {k : String}
    (v : α) (h : alistFind l k = none) : setEntry l k v = l ++ [(k, v)] := by
  unfold setEntry
  rw [alistFind_eq_none_iff.mp h]
  simp

theorem alistFind_map_replace_self {α : Type} (l : List (String × α))
    (k : String) (v : α) :
    alistFind (l.map (fun p => if p.1 == k then (k, v) else p)) k =
      if l.any (fun p => p.1 == k) then some v else alistFind l k := by
  induction l with
  | nil => rfl
  | cons p rest ih =>
    rcases p with ⟨k₀, v₀⟩
    by_cases h : k₀ = k
    · subst h
      simp only [List.map_cons, beq_self_eq_true, if_true, List.any_cons,
        Bool.true_or]
      rw [alistFind_cons, if_pos rfl]
    · have hb : ((k₀, v₀).1 == k) = false := by simpa using h
      simp only [List.map_cons, hb, Bool.false_eq_true, if_false,
        List.any_cons, Bool.false_or]
      rw [alistFind_cons, if_neg h, ih, alistFind_cons, if_neg h]

theorem alistFind_map_replace_ne {α : Type} (l : List (String × α))
    (k : String) (v : α) {k' : String} (h : k' ≠ k) :
    alistFind (l.map (fun p => if p.1 == k then (k, v) else p)) k' =
      alistFind l k' := by
  induction l with
  | nil => rfl
  | cons p rest ih =>
    rcases p with ⟨k₀, v₀⟩
    by_cases hk : k₀ = k
    · subst hk
      simp only [List.map_cons, beq_self_eq_true, if_true]
      rw [alistFind_cons, alistFind_cons, if_neg (fun hh => h hh.symm),
        if_neg (fun hh => h hh.symm)]
      exact ih
    · have hb : ((k₀, v₀).1 == k) = false := by simpa using hk
      simp only [List.map_cons, hb, Bool.false_eq_true, if_false]
      rw [alistFind_cons, alistFind_cons]
      by_cases hkk : k₀ = k'
      · simp [hkk]
      · rw [if_neg hkk, if_neg hkk]
        exact ih

theorem alistFind_setEntry_self {α : Type} (l : List (String × α))
    (k : String) (v : α) : alistFind (setEntry l k v) k = some v := by
  unfold setEntry
  by_cases h : l.any (fun p => p.1 == k)
  · rw [if_pos h, alistFind_map_replace_self, if_pos h]
  · rw [if_neg h]
    have hfalse : l.any (fun p => p.1 == k) = false := by
      rw [← Bool.not_eq_true]; exact h
    rw [alistFind_append_of_none _ (alistFind_eq_none_iff.mpr hfalse)]
    rw [alistFind_cons, if_pos rfl]

theorem alistFind_setEntry_ne {α : Type} (l : List (String × α))
    (k : String) (v : α) {k' : String} (h : k' ≠ k) :
    alistFind (setEntry l k v) k' = alistFind l k' := by
  unfold setEntry
  by_cases hk : l.any (fun p => p.1 == k)
  · rw [if_pos hk, alistFind_map_replace_ne _ _ _ h]
  · rw [if_neg hk, alistFind_append]
    rw [alistFind_cons, if_neg (fun hh => h hh.symm)]
    rcases alistFind l k' with _ | w <;> rfl

theorem keys_map_replace {α : Type} (l : List (String × α)) (k : String)
    (v : α) :
    (l.map (fun p => if p.1 == k then (k, v) else p)).map Prod.fst =
      l.map Prod.fst := by
  induction l with
  | nil => rfl
  | cons p rest ih =>
    rcases p with ⟨k₀, v₀⟩
    by_cases hk : k₀ = k
    · subst hk
      simp only [List.map_cons, beq_self_eq_true, if_true, ih]
    · have hb : ((k₀, v₀).1 == k) = false := by simpa using hk
      simp only [List.map_cons, hb, Bool.false_eq_true, if_false, ih]

theorem keys_setEntry {α : Type} (l : List (String × α)) (k : String) (v : α) :
    (setEntry l k v).map Prod.fst =
      if l.any (fun p => p.1 == k) then l.map Prod.fst
      else l.map Prod.fst ++ [k] := by
  unfold setEntry
  by_cases h : l.any (fun p => p.1 == k)
  · rw [if_pos h, if_pos h, keys_map_replace]
  · rw [if_neg h, if_neg h]
    simp

theorem keys_setEntry_nodup {α : Type} {l : List (String × α)} {k : String}
    (v : α) (h : (l.map Prod.fst).Nodup) :
    ((setEntry l k v).map Prod.fst).Nodup := by
  rw [keys_setEntry]
  by_cases hk : l.any (fun p => p.1 == k)
  · rwa [if_pos hk]
  · rw [if_neg hk]
    have hfalse : l.any (fun p => p.1 == k) = false := by
      rw [← Bool.not_eq_true]; exact hk
    have hnm : k ∉ l.map Prod.fst := by
      intro hmem
      rcases List.mem_map.mp hmem with ⟨p, hp, hpk⟩
      have h2 := List.any_eq_false.mp hfalse p hp
      exact h2 (by simpa using hpk)
    rw [List.nodup_append]
    refine ⟨h, List.nodup_singleton _, ?_⟩
    intro x hx hxk
    rcases List.mem_singleton.mp hxk with rfl
    exact hnm hx

theorem dictGetD_fst {α : Type} (l : List (String × α)) (k : String)
    (dflt : α) : (dictGetD l k dflt).1 = (alistFind l k).getD dflt := by
  unfold dictGetD
  rcases h : alistFind l k with _ | v <;> simp [h]

theorem dictGetD_snd_find {α : Type} (l : List (String × α)) (k : String)
    (dflt : α) (k' : String) :
    alistFind (dictGetD l k dflt).2 k' =
      if k' = k then some ((dictGetD l k dflt).1) else alistFind l k' := by
  unfold dictGetD
  rcases h : alistFind l k with _ | v
  · by_cases hk : k' = k
    · subst hk
      simp only
      rw [alistFind_append_of_none _ h, alistFind_cons]
      simp
    · simp only
      rw [if_neg hk, alistFind_append, alistFind_cons,
        if_neg (fun hh => hk hh.symm)]
      rcases alistFind l k' with _ | w <;> rfl
  · by_cases hk : k' = k
    · subst hk
      simp [h]
    · simp [if_neg hk]

/-! ### `record_request` field equations and observer lemmas -/

theorem record_request_delays (st : RLState) (p : String) (b : Bool)
    (now : ℚ) (w : Bool) :
    (record_request st p b now w).1.delays =
      setEntry (dictGetD st.delays p (1/2)).2 p
        (if b then min ((dictGetD st.delays p (1/2)).1 * 2) 30
         else max ((dictGetD st.delays p (1/2)).1 * (9/10)) (1/2)) := by
  cases b <;> rfl

theorem record_request_last (st : RLState) (p : String) (b : Bool)
    (now : ℚ) (w : Bool) :
    (record_request st p b now w).1.last_request =
      setEntry st.last_request p now := by
  cases b <;> rfl

theorem record_request_limits_true (st : RLState) (p : String)
    (now : ℚ) (w : Bool) :
    (record_request st p true now w).1.limits =
      setEntry (dictGetD st.limits p { count := .num 0, reset_time := now }).2 p
        { (dictGetD st.limits p { count := .num 0, reset_time := now }).1 with
          reset_time := now + 60 } := rfl

theorem record_request_limits_false (st : RLState) (p : String)
    (now : ℚ) (w : Bool) :
    (record_request st p false now w).1.limits = st.limits := rfl

theorem delayOf_record (st : RLState) (p q : String) (b : Bool)
    (now : ℚ) (w : Bool) :
    delayOf (record_request st p b now w).1 q =
      if q = p then
        (if b then min (delayOf st p * 2) 30
         else max (delayOf st p * (9/10)) (1/2))
      else delayOf st q := by
  unfold delayOf
  rw [record_request_delays]
  by_cases hq : q = p
  · subst hq
    rw [alistFind_setEntry_self, if_pos rfl]
    cases b <;> simp [dictGetD_fst]
  · rw [alistFind_setEntry_ne _ _ _ hq, dictGetD_snd_find, if_neg hq, if_neg hq]

theorem lastRequestOf_record (st : RLState) (p q : String) (b : Bool)
    (now : ℚ) (w : Bool) :
    lastRequestOf (record_request st p b now w).1 q =
      if q = p then some now else lastRequestOf st q := by
  unfold lastRequestOf
  rw [record_request_last]
  by_cases hq : q = p
  · subst hq
    rw [alistFind_setEntry_self, if_pos rfl]
  · rw [alistFind_setEntry_ne _ _ _ hq, if_neg hq]

theorem resetTimeOf_record_true (st : RLState) (p q : String)
    (now : ℚ) (w : Bool) (t : ℚ) :
    resetTimeOf (record_request st p true now w).1 q t =
      if q = p then now + 60 else resetTimeOf st q t := by
  unfold resetTimeOf
  rw [record_request_limits_true]
  by_cases hq : q = p
  · subst hq
    rw [alistFind_setEntry_self, if_pos rfl]
    rfl
  · rw [alistFind_setEntry_ne _ _ _ hq, dictGetD_snd_find, if_neg hq, if_neg hq]

theorem limits_record_ne (st : RLState) (p q : String) (b : Bool)
    (now : ℚ) (w : Bool) (h : q ≠ p) :
    alistFind (record_request st p b now w).1.limits q =
      alistFind st.limits q := by
  cases b
  · rw [record_request_limits_false]
  · rw [record_request_limits_true, alistFind_setEntry_ne _ _ _ h,
      dictGetD_snd_find, if_neg h]

/-! ### Claim theorems: record_request behaviour and frame -/

/-- C10: `record_request(s, b)` touches only service `s` in memory: the
delay, last-request and limits entries of any other service `t` are
unchanged, and when `b = false` the limits map — including the count
and reset deadline of `s` itself — is left entirely unchanged, so a
successful request never alters an active hard cool-down. -/
theorem record_request_frame (st : RLState) (s t : String) (b : Bool)
    (now : ℚ) (w : Bool) (h : t ≠ s) :
    delayOf (record_request st s b now w).1 t = delayOf st t ∧
    lastRequestOf (record_request st s b now w).1 t = lastRequestOf st t ∧
    alistFind (record_request st s b now w).1.limits t =
      alistFind st.limits t ∧
    (b = false → (record_request st s b now w).1.limits = st.limits) := by
  refine ⟨?_, ?_, ?_, ?_⟩
  · rw [delayOf_record, if_neg h]
  · rw [lastRequestOf_record, if_neg h]
  · exact limits_record_ne st s t b now w h
  · rintro rfl
    exact record_request_limits_false st s now w

/-- Witness for `record_request_frame` at concrete inputs. -/
theorem record_request_frame_witness :
    delayOf (record_request initState "a" true 0 true).1 "b" =
      delayOf initState "b" ∧
    lastRequestOf (record_request initState "a" true 0 true).1 "b" =
      lastRequestOf initState "b" ∧
    alistFind (record_request initState "a" true 0 true).1.limits "b" =
      alistFind initState.limits "b" ∧
    (true = false → (record_request initState "a" true 0 true).1.limits =
      initState.limits) :=
  record_request_frame initState "a" "b" true 0 true (by decide)

/-- C3: a throttled `record_request(s, true)` stamps `last_request[s]`
with `now`, replaces the delay by `min(2·delay, 30)` — never smaller,
strictly larger below the cap — and sets the reset deadline to
`now + 60`; from the fresh default state one such call yields delay 1
with a 60-second `should_wait`, and ten consecutive calls yield delay
exactly 30. -/
theorem record_request_throttled (st : RLState) (p : String) (now : ℚ)
    (w : Bool) (h1 : 1/2 ≤ delayOf st p) (h2 : delayOf st p ≤ 30) :
    lastRequestOf (record_request st p true now w).1 p = some now ∧
    delayOf (record_request st p true now w).1 p =
      min (delayOf st p * 2) 30 ∧
    delayOf st p ≤ delayOf (record_request st p true now w).1 p ∧
    (delayOf st p < 30 →
      delayOf st p < delayOf (record_request st p true now w).1 p) ∧
    resetTimeOf (record_request st p true now w).1 p now = now + 60 ∧
    (∀ t w2, delayOf (record_request initState "x" true t w2).1 "x" = 1 ∧
      (should_wait (record_request initState "x" true t w2).1 "x" t).1 = 60) ∧
    (∀ t w2, delayOf
      (runRecords initState (List.replicate 10 ⟨"x", true, t, w2⟩)) "x" = 30) := by
  refine ⟨?_, ?_, ?_, ?_, ?_, ?_, ?_⟩
  · rw [lastRequestOf_record, if_pos rfl]
  · rw [delayOf_record, if_pos rfl, if_pos rfl]
  · rw [delayOf_record, if_pos rfl, if_pos rfl]
    rcases min_cases (delayOf st p * 2) 30 with ⟨hmin, _⟩ | ⟨hmin, _⟩ <;>
      rw [hmin] <;> linarith
  · intro hlt
    rw [delayOf_record, if_pos rfl, if_pos rfl]
    rcases min_cases (delayOf st p * 2) 30 with ⟨hmin, _⟩ | ⟨hmin, _⟩ <;>
      rw [hmin] <;> linarith
  · rw [resetTimeOf_record_true, if_pos rfl]
  · intro t w2
    constructor
    · rw [delayOf_record, if_pos rfl, if_pos rfl]
      norm_num [delayOf, initState, alistFind]
    · simp [should_wait, record_request, initState, dictGetD, alistFind,
        setEntry]
  · intro t w2
    simp [runRecords, List.replicate, delayOf_record]
    norm_num [delayOf, initState, alistFind]

/-- Witness for `record_request_throttled`: the fresh default state
meets the delay-range hypotheses and one throttled call stamps
`last_request`. -/
theorem record_request_throttled_witness :
    1/2 ≤ delayOf initState "x" ∧ delayOf initState "x" ≤ 30 ∧
    lastRequestOf (record_request initState "x" true 0 true).1 "x" =
      some 0 := by
  have h1 : 1/2 ≤ delayOf initState "x" := by
    norm_num [delayOf, initState, alistFind]
  have h2 : delayOf initState "x" ≤ 30 := by
    norm_num [delayOf, initState, alistFind]
  exact ⟨h1, h2, (record_request_throttled initState "x" 0 true h1 h2).1⟩

/-- C4: a successful `record_request(s, false)` never increases the
delay and never pushes it below 0.5; on the fresh store one call
leaves the delay at 0.5, creates no limits entry, and the observed
reset deadline stays ≤ now. -/
theorem record_request_success (st : RLState) (p : String) (now : ℚ)
    (w : Bool) (h1 : 1/2 ≤ delayOf st p) :
    delayOf (record_request st p false now w).1 p ≤ delayOf st p ∧
    1/2 ≤ delayOf (record_request st p false now w).1 p ∧
    (∀ t w2 t2,
      delayOf (record_request initState "x" false t w2).1 "x" = 1/2 ∧
      (record_request initState "x" false t w2).1.limits = [] ∧
      resetTimeOf (record_request initState "x" false t w2).1 "x" t2 ≤ t2) := by
  refine ⟨?_, ?_, ?_⟩
  · rw [delayOf_record, if_pos rfl]
    simp only [Bool.false_eq_true, if_false]
    apply max_le
    · nlinarith
    · exact h1
  · rw [delayOf_record, if_pos rfl]
    simp only [Bool.false_eq_true, if_false]
    exact le_max_right _ _
  · intro t w2 t2
    refine ⟨?_, ?_, ?_⟩
    · rw [delayOf_record, if_pos rfl]
      norm_num [delayOf, initState, alistFind]
    · exact record_request_limits_false initState "x" t w2
    · rw [resetTimeOf, record_request_limits_false]
      simp [initState, alistFind]

/-- Witness for `record_request_success` at the fresh default state. -/
theorem record_request_success_witness :
    1/2 ≤ delayOf initState "x" ∧
    delayOf (record_request initState "x" false 0 true).1 "x" ≤
      delayOf initState "x" := by
  have h1 : 1/2 ≤ delayOf initState "x" := by
    norm_num [delayOf, initState, alistFind]
  exact ⟨h1, (record_request_success initState "x" 0 true h1).1⟩

/-- C5 counterexample: on the fresh default state the very first
`should_wait("x")` does NOT return 0 — seeding `last_request` to the
moment of access makes the elapsed time zero, so the full default
adaptive delay of 0.5 is returned. -/
theorem first_use_wait_counterexample : (should_wait initState "x" 0).1 ≠ 0 := by
  have h : (should_wait initState "x" 0).1 = 1/2 := by
    simp [should_wait, initState, dictGetD, alistFind]
  rw [h]
  norm_num

/-- C5 amended: for a service with no limits, last-request or delay
entry, the first `should_wait` returns exactly the default delay 0.5
(a non-negative wait, but not 0): the unseen-service defaults make the
reset check fail and the elapsed time zero. -/
theorem first_use_wait_amended (st : RLState) (p : String) (t : ℚ)
    (h1 : alistFind st.limits p = none)
    (h2 : alistFind st.last_request p = none)
    (h3 : alistFind st.delays p = none) :
    (should_wait st p t).1 = 1/2 := by
  simp only [should_wait, dictGetD, h1, h2, h3]
  norm_num

/-- Witness for `first_use_wait_amended` on the fresh default state. -/
theorem first_use_wait_amended_witness :
    (should_wait initState "x" 0).1 = 1/2 :=
  first_use_wait_amended initState "x" 0 rfl rfl rfl

/-! ### The delay invariant (C1) -/

theorem delaysFold_inRange (fs : List (String × JVal)) :
    ∀ acc : List (String × ℚ),
      (∀ p, delayInRange ((alistFind acc p).getD (1/2))) →
      (∀ pr ∈ fs, ∀ q : ℚ, pr.2 = JVal.num q → delayInRange q) →
      ∀ p, delayInRange ((alistFind
        (fs.foldl (fun acc2 pv =>
          match pv.2 with
          | .num q => setEntry acc2 pv.1 q
          | _ => acc2) acc) p).getD (1/2)) := by
  induction fs with
  | nil => intro acc hacc _ p; exact hacc p
  | cons pr rest ih =>
    intro acc hacc hfs p
    rw [List.foldl_cons]
    cases hpv : pr.2 with
    | num q =>
      simp only [hpv]
      apply ih
      · intro p2
        by_cases hp : p2 = pr.1
        · subst hp
          rw [alistFind_setEntry_self]
          exact hfs pr (List.mem_cons_self _ _) q hpv
        · rw [alistFind_setEntry_ne _ _ _ hp]
          exact hacc p2
      · intro pr2 h2 q2 hq2
        exact hfs pr2 (List.mem_cons_of_mem _ h2) q2 hq2
    | str s =>
      simp only [hpv]
      exact ih acc hacc (fun pr2 h2 q2 hq2 =>
        hfs pr2 (List.mem_cons_of_mem _ h2) q2 hq2) p
    | tstamp t =>
      simp only [hpv]
      exact ih acc hacc (fun pr2 h2 q2 hq2 =>
        hfs pr2 (List.mem_cons_of_mem _ h2) q2 hq2) p
    | boolv b =>
      simp only [hpv]
      exact ih acc hacc (fun pr2 h2 q2 hq2 =>
        hfs pr2 (List.mem_cons_of_mem _ h2) q2 hq2) p
    | null =>
      simp only [hpv]
      exact ih acc hacc (fun pr2 h2 q2 hq2 =>
        hfs pr2 (List.mem_cons_of_mem _ h2) q2 hq2) p
    | obj fs2 =>
      simp only [hpv]
      exact ih acc hacc (fun pr2 h2 q2 hq2 =>
        hfs pr2 (List.mem_cons_of_mem _ h2) q2 hq2) p

theorem load_limits_delayOf_inRange (st : RLState) (file : FileContent)
    (now : ℚ) (hst : ∀ q', delayInRange (delayOf st q'))
    (hf : fileDelaysInRange file) :
    ∀ p, delayInRange (delayOf (load_limits st file now) p) := by
  cases file with
  | missing => exact hst
  | malformed => exact hst
  | parsed v =>
    cases v with
    | num q => exact hst
    | str s => exact hst
    | tstamp t => exact hst
    | boolv b => exact hst
    | null => exact hst
    | obj fs =>
      intro p
      unfold load_limits
      simp only [pyGet]
      rw [show (((fs.find? (fun p2 => p2.1 == "limits"))).map
        (fun p2 => p2.2)).getD (.obj []) = limitsSection fs from rfl]
      cases hls : limitsSection fs with
      | obj lfs =>
        simp only [pyItems]
        cases hr : (limitsLoop lfs now st.limits).2 with
        | some e => simp only [hr]; exact hst p
        | none =>
          simp only [hr]
          rw [show (((fs.find? (fun p2 => p2.1 == "delays"))).map
            (fun p2 => p2.2)).getD (.obj []) = delaysSection fs from rfl]
          simp only [fileDelaysInRange] at hf
          cases hds : delaysSection fs with
          | obj ds =>
            simp only [hds] at hf
            simp only [delaysUpdate]
            exact delaysFold_inRange ds st.delays hst hf p
          | num q => simp only [delaysUpdate]; exact hst p
          | str s => simp only [delaysUpdate]; exact hst p
          | tstamp t => simp only [delaysUpdate]; exact hst p
          | boolv b => simp only [delaysUpdate]; exact hst p
          | null => simp only [delaysUpdate]; exact hst p
      | num q => simp only [pyItems]; exact hst p
      | str s => simp only [pyItems]; exact hst p
      | tstamp t => simp only [pyItems]; exact hst p
      | boolv b => simp only [pyItems]; exact hst p
      | null => simp only [pyItems]; exact hst p

theorem delayInRange_record (st : RLState) (p : String) (b : Bool)
    (now : ℚ) (w : Bool) (hst : ∀ q', delayInRange (delayOf st q')) :
    ∀ q', delayInRange (delayOf (record_request st p b now w).1 q') := by
  intro q'
  rw [delayOf_record]
  by_cases hq : q' = p
  · rw [if_pos hq]
    rcases hst p with ⟨hl, hr⟩
    cases b
    · simp only [Bool.false_eq_true, if_false]
      constructor
      · exact le_max_right _ _
      · apply max_le
        · nlinarith
        · norm_num
    · simp only [if_true]
      constructor
      · rcases min_cases (delayOf st p * 2) 30 with ⟨hmin, _⟩ | ⟨hmin, _⟩ <;>
          rw [hmin] <;> linarith
      · exact min_le_right _ _
  · rw [if_neg hq]
    exact hst q'

theorem delayInRange_runRecords (st : RLState)
    (hst : ∀ q', delayInRange (delayOf st q')) :
    ∀ ops : List RecordOp, ∀ q',
      delayInRange (delayOf (runRecords st ops) q') := by
  intro ops
  induction ops generalizing st with
  | nil => exact hst
  | cons op rest ih =>
    intro q'
    rw [runRecords, List.foldl_cons]
    exact ih _ (delayInRange_record st op.platform op.was_rate_limited
      op.now op.writeOk hst) q'

/-- C1 counterexample: constructing a `RateLimiter` from a persisted
store whose delay entry for `"x"` is 100 leaves `delay["x"] = 100`:
`load_limits` copies persisted delay values without clamping, so the
invariant `0.5 ≤ delay ≤ 30` fails right after construction. -/
theorem delay_invariant_counterexample :
    ¬ (1/2 ≤ delayOf (mkRateLimiter
        (.parsed (.obj [("delays", .obj [("x", .num 100)])])) 0) "x" ∧
       delayOf (mkRateLimiter
        (.parsed (.obj [("delays", .obj [("x", .num 100)])])) 0) "x" ≤ 30) := by
  have h : delayOf (mkRateLimiter
      (.parsed (.obj [("delays", .obj [("x", .num 100)])])) 0) "x" = 100 := rfl
  rw [h]
  norm_num

/-- C1 amended: the delay invariant `0.5 ≤ delay[s] ≤ 30` holds in the
default state, holds after construction from a persisted store whose
delay entries all lie in the range, and is preserved by any sequence of
`record_request` calls — but construction from an arbitrary store does
not restore it, because `load_limits` copies delay entries unclamped. -/
theorem delay_invariant_amended :
    (∀ p, delayInRange (delayOf initState p)) ∧
    (∀ file now p, fileDelaysInRange file →
      delayInRange (delayOf (mkRateLimiter file now) p)) ∧
    (∀ st ops p, (∀ q, delayInRange (delayOf st q)) →
      delayInRange (delayOf (runRecords st ops) p)) := by
  have hinit : ∀ p, delayInRange (delayOf initState p) := by
    intro p
    show 1/2 ≤ delayOf initState p ∧ delayOf initState p ≤ 30
    norm_num [delayOf, initState, alistFind]
  refine ⟨hinit, ?_, ?_⟩
  · intro file now p hf
    exact load_limits_delayOf_inRange initState file now hinit hf p
  · intro st ops p hst
    exact delayInRange_runRecords st hst ops p

/-- Witness for `delay_invariant_amended`: an in-range store and a
one-call record sequence. -/
theorem delay_invariant_amended_witness :
    fileDelaysInRange (.parsed (.obj [("delays", .obj [("x", .num 3)])])) ∧
    delayInRange (delayOf (mkRateLimiter
      (.parsed (.obj [("delays", .obj [("x", .num 3)])])) 0) "x") ∧
    delayInRange (delayOf (runRecords initState [⟨"x", true, 0, true⟩]) "x") := by
  have hf : fileDelaysInRange
      (.parsed (.obj [("delays", .obj [("x", .num 3)])])) := by
    show ∀ pr ∈ [("x", JVal.num 3)], ∀ q : ℚ, pr.2 = JVal.num q → delayInRange q
    intro pr hpr q hq
    rcases List.mem_singleton.mp hpr with rfl
    injection hq with h3
    subst h3
    show (1:ℚ)/2 ≤ 3 ∧ (3:ℚ) ≤ 30
    norm_num
  exact ⟨hf, delay_invariant_amended.2.1 _ 0 "x" hf,
    delay_invariant_amended.2.2 initState _ "x" delay_invariant_amended.1⟩

/-! ### Persistence round-trip (C8) -/

theorem loadEntry_serialize (e : LimitEntry) (now : ℚ) :
    loadEntry (serializeEntry e) now = .ok e := rfl

theorem pyGet_saveStore_limits (st : RLState) :
    pyGet (saveStore st) "limits" (.obj []) =
      .ok (.obj (st.limits.map (fun pe => (pe.1, serializeEntry pe.2)))) := rfl

theorem pyGet_saveStore_delays (st : RLState) :
    pyGet (saveStore st) "delays" (.obj []) =
      .ok (.obj (st.delays.map (fun pd => (pd.1, .num pd.2)))) := rfl

theorem limitsLoop_serialized (L : List (String × LimitEntry)) (now : ℚ) :
    ∀ acc : List (String × LimitEntry),
      (L.map Prod.fst).Nodup →
      (∀ k ∈ L.map Prod.fst, alistFind acc k = none) →
      limitsLoop (L.map (fun pe => (pe.1, serializeEntry pe.2))) now acc =
        (acc ++ L, none) := by
  induction L with
  | nil => intro acc _ _; simp [limitsLoop]
  | cons pe rest ih =>
    intro acc hnd hfresh
    obtain ⟨pk, pv⟩ := pe
    rw [List.map_cons]
    simp only [limitsLoop, loadEntry_serialize]
    rw [setEntry_of_find_none _ (hfresh pk (by simp))]
    have hnd2 : (rest.map Prod.fst).Nodup := (List.nodup_cons.mp (by simpa using hnd)).2
    have hnm : pk ∉ rest.map Prod.fst := (List.nodup_cons.mp (by simpa using hnd)).1
    rw [ih (acc ++ [(pk, pv)]) hnd2 ?_]
    · simp
    · intro k hk
      have h1 : alistFind acc k = none := hfresh k (by simp [hk])
      have hne : pk ≠ k := fun he => hnm (he ▸ hk)
      rw [alistFind_append, h1, Option.none_or, alistFind_cons, if_neg hne]
      rfl

theorem delaysFold_serialized (L : List (String × ℚ)) :
    ∀ acc : List (String × ℚ),
      (L.map Prod.fst).Nodup →
      (∀ k ∈ L.map Prod.fst, alistFind acc k = none) →
      (L.map (fun pd => (pd.1, JVal.num pd.2))).foldl
        (fun acc2 pv => match pv.2 with
          | JVal.num q => setEntry acc2 pv.1 q
          | _ => acc2) acc = acc ++ L := by
  induction L with
  | nil => intro acc _ _; simp
  | cons pd rest ih =>
    intro acc hnd hfresh
    obtain ⟨pk, pv⟩ := pd
    rw [List.map_cons, List.foldl_cons]
    simp only
    rw [setEntry_of_find_none _ (hfresh pk (by simp))]
    have hnd2 : (rest.map Prod.fst).Nodup := (List.nodup_cons.mp (by simpa using hnd)).2
    have hnm : pk ∉ rest.map Prod.fst := (List.nodup_cons.mp (by simpa using hnd)).1
    rw [ih (acc ++ [(pk, pv)]) hnd2 ?_]
    · simp
    · intro k hk
      have h1 : alistFind acc k = none := hfresh k (by simp [hk])
      have hne : pk ≠ k := fun he => hnm (he ▸ hk)
      rw [alistFind_append, h1, Option.none_or, alistFind_cons, if_neg hne]
      rfl

theorem load_of_save (st : RLState) (now2 : ℚ)
    (hl : (st.limits.map Prod.fst).Nodup)
    (hd : (st.delays.map Prod.fst).Nodup) :
    mkRateLimiter (.parsed (saveStore st)) now2 =
      { limits := st.limits, delays := st.delays, last_request := [] } := by
  have hloop := limitsLoop_serialized st.limits now2 [] hl (fun k hk => rfl)
  have hfold := delaysFold_serialized st.delays [] hd (fun k hk => rfl)
  simp only [mkRateLimiter, load_limits, pyGet_saveStore_limits, pyItems,
    initState, hloop, pyGet_saveStore_delays, delaysUpdate, hfold,
    List.nil_append]

theorem limitsLoop_keys_nodup (items : List (String × JVal)) (now : ℚ) :
    ∀ acc : List (String × LimitEntry), ((acc.map Prod.fst).Nodup) →
      (((limitsLoop items now acc).1.map Prod.fst)).Nodup := by
  induction items with
  | nil => intro acc h; exact h
  | cons it rest ih =>
    intro acc h
    obtain ⟨pk, pv⟩ := it
    cases hle : loadEntry pv now with
    | error e => simp only [limitsLoop, hle]; exact h
    | ok entry =>
      simp only [limitsLoop, hle]
      exact ih _ (keys_setEntry_nodup _ h)

theorem delaysFold_keys_nodup (fs : List (String × JVal)) :
    ∀ acc : List (String × ℚ), (acc.map Prod.fst).Nodup →
      ((fs.foldl (fun acc2 pv => match pv.2 with
        | JVal.num q => setEntry acc2 pv.1 q
        | _ => acc2) acc).map Prod.fst).Nodup := by
  induction fs with
  | nil => intro acc h; exact h
  | cons pr rest ih =>
    intro acc h
    rw [List.foldl_cons]
    cases hpv : pr.2 with
    | num q => simp only [hpv]; exact ih _ (keys_setEntry_nodup _ h)
    | str s => simp only [hpv]; exact ih _ h
    | tstamp t => simp only [hpv]; exact ih _ h
    | boolv b => simp only [hpv]; exact ih _ h
    | null => simp only [hpv]; exact ih _ h
    | obj fs2 => simp only [hpv]; exact ih _ h

theorem mk_keys_nodup (file : FileContent) (now : ℚ) :
    (((mkRateLimiter file now).limits.map Prod.fst)).Nodup ∧
    (((mkRateLimiter file now).delays.map Prod.fst)).Nodup := by
  have hnil1 : (([] : List (String × LimitEntry)).map Prod.fst).Nodup := by simp
  have hnil2 : (([] : List (String × ℚ)).map Prod.fst).Nodup := by simp
  cases file with
  | missing => exact ⟨hnil1, hnil2⟩
  | malformed => exact ⟨hnil1, hnil2⟩
  | parsed v =>
    cases v with
    | num q => exact ⟨hnil1, hnil2⟩
    | str s => exact ⟨hnil1, hnil2⟩
    | tstamp t => exact ⟨hnil1, hnil2⟩
    | boolv b => exact ⟨hnil1, hnil2⟩
    | null => exact ⟨hnil1, hnil2⟩
    | obj fs =>
      unfold mkRateLimiter load_limits
      simp only [pyGet]
      rw [show (((fs.find? (fun p2 => p2.1 == "limits"))).map
        (fun p2 => p2.2)).getD (.obj []) = limitsSection fs from rfl]
      cases hls : limitsSection fs with
      | obj lfs =>
        simp only [pyItems]
        have hnl := limitsLoop_keys_nodup lfs now [] (by simp)
        cases hr : (limitsLoop lfs now ([] : List (String × LimitEntry))).2 with
        | some e =>
          simp only [initState, hr]
          exact ⟨hnl, hnil2⟩
        | none =>
          simp only [initState, hr]
          cases hds : (((fs.find? (fun p2 => p2.1 == "delays"))).map
            (fun p2 => p2.2)).getD (.obj []) with
          | obj ds =>
            simp only [delaysUpdate]
            exact ⟨hnl, delaysFold_keys_nodup ds [] hnil2⟩
          | num q => simp only [delaysUpdate]; exact ⟨hnl, hnil2⟩
          | str s => simp only [delaysUpdate]; exact ⟨hnl, hnil2⟩
          | tstamp t => simp only [delaysUpdate]; exact ⟨hnl, hnil2⟩
          | boolv b => simp only [delaysUpdate]; exact ⟨hnl, hnil2⟩
          | null => simp only [delaysUpdate]; exact ⟨hnl, hnil2⟩
      | num q => exact ⟨hnil1, hnil2⟩
      | str s => exact ⟨hnil1, hnil2⟩
      | tstamp t => exact ⟨hnil1, hnil2⟩
      | boolv b => exact ⟨hnil1, hnil2⟩
      | null => exact ⟨hnil1, hnil2⟩

/-- C8: persistence round-trip.  For every store content, loading it,
saving the resulting in-memory state unchanged with `save_limits`, and
loading the written document again reproduces the per-service limits
map (count and reset timestamp) and delays map exactly. -/
theorem persistence_roundtrip (file : FileContent) (now now2 : ℚ) :
    (mkRateLimiter (.parsed (saveStore (mkRateLimiter file now))) now2).limits =
      (mkRateLimiter file now).limits ∧
    (mkRateLimiter (.parsed (saveStore (mkRateLimiter file now))) now2).delays =
      (mkRateLimiter file now).delays := by
  obtain ⟨hl, hd⟩ := mk_keys_nodup file now
  rw [load_of_save _ now2 hl hd]
  exact ⟨rfl, rfl⟩

/-! ### Construction robustness (C9) -/

/-- C9: constructing a `RateLimiter` never surfaces an exception for
any store content — missing, unparsable, wrong-typed JSON, or entries
with unreadable fields — falling back to defaults for whatever cannot
be read (the all-default state for a fully corrupt file, `now` for an
unparsable `reset_time`, `0` for a missing `count`); and a failed
`save_limits` write inside `record_request` is swallowed: it produces
no document and leaves the in-memory result identical to a successful
write. -/
theorem construction_never_raises :
    (∀ now : ℚ, mkRateLimiter .missing now = initState) ∧
    (∀ now : ℚ, mkRateLimiter .malformed now = initState) ∧
    (∀ now : ℚ, mkRateLimiter (.parsed (.num 5)) now = initState) ∧
    (∀ now : ℚ, mkRateLimiter (.parsed (.obj [("limits",
        .obj [("x", .obj [("reset_time", .str "garbage")])])])) now =
      { limits := [("x", { count := .num 0, reset_time := now })],
        delays := [], last_request := [] }) ∧
    (∀ (st : RLState) (p : String) (b : Bool) (now : ℚ),
      (record_request st p b now false).2 = none ∧
      (record_request st p b now false).1 = (record_request st p b now true).1) := by
  refine ⟨fun now => rfl, fun now => rfl, fun now => rfl, fun now => rfl, ?_⟩
  intro st p b now
  exact ⟨by cases b <;> rfl, by cases b <;> rfl⟩

/-! ### Dispatcher (C2) -/

theorem check_username_go
    (checks : List (String × (String → Except ReqExc CheckResult)))
    (username : String) :
    ∀ (acc : List (String × CheckResult)) (s : Stats),
      checks.foldl (fun acc2 pf =>
        let result := handle_request_errors pf.2 username
        (acc2.1 ++ [(pf.1, result)], acc2.2.incr result)) (acc, s) =
      (acc ++ checks.map (fun pf => (pf.1, handle_request_errors pf.2 username)),
       (checks.map (fun pf => handle_request_errors pf.2 username)).foldl
         Stats.incr s) := by
  induction checks with
  | nil => intro acc s; simp
  | cons pf rest ih =>
    intro acc s
    rw [List.foldl_cons, List.map_cons, List.map_cons, List.foldl_cons]
    simp only
    rw [ih]
    simp

theorem Stats.get_incr (s : Stats) (x r : CheckResult) :
    (s.incr x).get r = if x = r then s.get r + 1 else s.get r := by
  cases x <;> cases r <;> simp [Stats.incr, Stats.get]

theorem stats_get_foldl (l : List CheckResult) :
    ∀ (s : Stats) (r : CheckResult),
      (l.foldl Stats.incr s).get r = s.get r + l.count r := by
  induction l with
  | nil => intro s r; simp
  | cons x rest ih =>
    intro s r
    rw [List.foldl_cons, ih, List.count_cons, Stats.get_incr]
    by_cases hx : x = r
    · simp [hx]
      omega
    · simp [hx]

/-- C2: `check_username` records exactly one outcome for every
registered service in registration order — each service's outcome is
the decorated result of its own probe, independent of the others, so
one failing probe never aborts the scan — the tally counts exactly
those outcomes, `handle_request_errors` maps an escaped exception by
kind (timeout → TIMEOUT, connection/transport → NETWORK_ERROR, other
→ UNKNOWN_ERROR), and on three services whose second probe raises a
timeout the tally shows exactly one TIMEOUT while services 1 and 3
keep their own outcomes. -/
theorem dispatcher_error_isolation :
    (∀ checks username,
      (check_username checks username).1 =
        checks.map (fun pf => (pf.1, handle_request_errors pf.2 username)) ∧
      ∀ r, ((check_username checks username).2).get r =
        (checks.map (fun pf => handle_request_errors pf.2 username)).count r) ∧
    (∀ (username : String) (e : ReqExc),
      handle_request_errors (fun _ => .error e) username = excOutcome e) ∧
    (excOutcome .timeout = .TIMEOUT ∧
     excOutcome .connectionError = .NETWORK_ERROR ∧
     excOutcome .requestException = .NETWORK_ERROR ∧
     excOutcome .other = .UNKNOWN_ERROR) ∧
    ((check_username [("s1", fun _ => .ok .FOUND),
        ("s2", fun _ => .error .timeout),
        ("s3", fun _ => .ok .NOT_FOUND)] "u").1 =
      [("s1", .FOUND), ("s2", .TIMEOUT), ("s3", .NOT_FOUND)] ∧
     ((check_username [("s1", fun _ => .ok .FOUND),
        ("s2", fun _ => .error .timeout),
        ("s3", fun _ => .ok .NOT_FOUND)] "u").2).timeout = 1) := by
  refine ⟨?_, fun username e => rfl, ⟨rfl, rfl, rfl, rfl⟩, rfl, rfl⟩
  intro checks username
  constructor
  · unfold check_username
    rw [check_username_go]
    simp
  · intro r
    unfold check_username
    rw [check_username_go]
    simp only
    rw [stats_get_foldl]
    cases r <;> simp [Stats.zero, Stats.get]

/-! ### Probe record-call accounting (C6) -/

/-- C6 counterexample: the decorated `github` probe invoked while
`session.get` raises a timeout makes ZERO `record_request` calls —
the claim's "exactly once on every execution path, never zero" fails
on the exception path. -/
theorem probe_record_counterexample :
    ¬ ((github_run (.exc .timeout)).2.length = 1) := by
  simp [github_run, github_body]

/-- C6 amended: a probe records exactly once per invocation on every
path on which its body runs to a normal return — `github` records
`(github, was_rate_limited)` with the flag exactly the classifier's
verdict on the response, and `mastodon` records exactly once whatever
its per-instance responses and in-loop exceptions — but an exception
escaping the body to the `handle_request_errors` decorator yields zero
records, and the `discord` probe (navarro_pw.py) records zero times on
its normal found/not-found paths, recording only in its internal
timeout handler. -/
theorem probe_record_calls_amended :
    (∀ r, (github_run (.resp r)).2 = [("github", check_rate_limit r)]) ∧
    (∀ e, (github_run (.exc e)).2 = []) ∧
    (∀ e, (github_run (.exc e)).1 = excOutcome e) ∧
    (∀ username env, (mastodon_run username env).2.length = 1) ∧
    (∀ s, (discord_run (.text s)).2 = []) ∧
    ((discord_run .timeoutExc).2 = [("discord", true)]) := by
  refine ⟨?_, fun e => rfl, fun e => rfl, ?_, fun s => rfl, rfl⟩
  · intro r
    unfold github_run github_body
    by_cases h : check_rate_limit r
    · simp [h]
    · simp [h]
  · intro username env
    have hloop : ∀ l : List String,
        (mastodon_loop username env l).2.length = 1 := by
      intro l
      induction l with
      | nil => rfl
      | cons i rest ih =>
        simp only [mastodon_loop]
        cases henv : env i with
        | exc e => exact ih
        | resp r =>
          dsimp only
          split_ifs with h1 h2
          · rfl
          · rfl
          · exact ih
    exact hloop mastodon_instances

/-! ### Outcome classification (C7) -/

theorem remaining_any_iff (hs : List (String × String)) :
    (remaining_headers.any (fun header =>
      match headersGet hs header with
      | some v =>
        match pyInt? v with
        | some remaining => remaining == 0
        | none => false
      | none => false) = true) ↔
    ∃ h ∈ remaining_headers, ∃ v, headersGet hs h = some v ∧
      pyInt? v = some 0 := by
  rw [List.any_eq_true]
  constructor
  · rintro ⟨h, hmem, hcond⟩
    refine ⟨h, hmem, ?_⟩
    rcases hg : headersGet hs h with _ | v
    · rw [hg] at hcond
      simp at hcond
    · rw [hg] at hcond
      dsimp only at hcond
      rcases hi : pyInt? v with _ | n
      · rw [hi] at hcond
        simp at hcond
      · rw [hi] at hcond
        dsimp only at hcond
        have hn : n = 0 := by simpa using hcond
        subst hn
        exact ⟨v, rfl, hi⟩
  · rintro ⟨h, hmem, v, hg, hi⟩
    exact ⟨h, hmem, by simp [hg, hi]⟩

/-- C7 counterexample: the Playwright variant of the classifier
examines only the page text, so on the raw signal bundle with HTTP
status 429 and empty body it answers `false` while the documented
characterisation (status 429 ⇒ throttled) says `true`: the stated
iff fails for navarro_pw.py's `check_rate_limit`. -/
theorem classifier_iff_counterexample :
    ¬ (check_rate_limit_pw_bundle
        { status_code := 429, headers := [], text := "" } = true ↔
       rate_limited_spec
        { status_code := 429, headers := [], text := "" }) := by
  intro h
  have h429 : rate_limited_spec
      { status_code := 429, headers := [], text := "" } := Or.inl rfl
  have hfalse := h.mpr h429
  simp [check_rate_limit_pw_bundle, check_rate_limit_pw] at hfalse

/-- C7 amended: navarro.py's `check_rate_limit` satisfies the
documented characterisation exactly — true iff status 429, or a
`retry-after` header, or a remaining-quota header parsing to the
integer 0, or a throttling phrase occurring case-insensitively in the
body — while navarro_pw.py's `check_rate_limit` examines only the body
text against its own fixed phrase list (ignoring status and headers,
false on empty content). -/
theorem classifier_characterization :
    (∀ r : Response, check_rate_limit r = true ↔ rate_limited_spec r) ∧
    (∀ content : String, check_rate_limit_pw content = true ↔
      ∃ p ∈ rate_limit_patterns_pw, strContains (pyLower content) p = true) ∧
    (∀ r : Response, check_rate_limit_pw_bundle r = check_rate_limit_pw r.text) := by
  refine ⟨?_, ?_, fun r => rfl⟩
  · intro r
    unfold check_rate_limit
    split_ifs with h1 h2 h3
    · exact iff_of_true rfl (Or.inl (by simpa using h1))
    · exact iff_of_true rfl (Or.inr (Or.inl h2))
    · exact iff_of_true rfl
        (Or.inr (Or.inr (Or.inl ((remaining_any_iff r.headers).mp h3))))
    · rw [List.any_eq_true]
      constructor
      · rintro ⟨p, hmem, hp⟩
        exact Or.inr (Or.inr (Or.inr ⟨p, hmem, hp⟩))
      · rintro (hA | hB | hC | ⟨p, hmem, hp⟩)
        · exact absurd (by simpa using hA) h1
        · exact absurd hB h2
        · exact absurd ((remaining_any_iff r.headers).mpr hC) h3
        · exact ⟨p, hmem, hp⟩
  · intro content
    unfold check_rate_limit_pw
    by_cases hc : content = ""
    · subst hc
      simp only [beq_self_eq_true, if_true]
      constructor
      · intro hfalse
        simp at hfalse
      · intro hex
        exact absurd hex (by decide)
    · rw [if_neg (by simpa using hc)]
      rw [List.any_eq_true]
